import Mathlib

/-!
Verification of the `remote-agents-core` broker against its specification.

Shallow embedding of the Rust sources:
* `crates/remote-agents-core/src/msg_store.rs` — `MsgStore` (push / eviction /
  history snapshot / history-plus-live streams),
* `crates/remote-agents-transport/src/protocol.rs` — wire messages with
  base64 payloads,
* `crates/remote-agents-executor/src/claude/{client,protocol}.rs` — tool
  approval dispatch,
* `crates/remote-agents-session/src/manager.rs` — session manager,
* `crates/remote-agents-session/src/storage/memory.rs` — in-memory storage,
* `crates/remote-agents-pty/src/shell.rs` — executable resolution and the
  PATH refresh.

Machine integers (`usize`) are modelled as `Nat` together with explicit
saturating operations at the 64-bit bound, matching the `saturating_add` /
`saturating_sub` calls in the source.
-/

namespace RemoteAgents

/-! ## LogMsg and its byte accounting -/

/-- Modelled from the spec: `crates/remote-agents-core/src/log_msg.rs`
(declared as `pub mod log_msg` in `lib.rs`) is not under `src/`.  Spec §3:
`LogMsg` is the tagged union `Stdout(string)`, `Stderr(string)`,
`JsonPatch(patch)`, `SessionId(string)`, `Finished`.  An external
`json_patch::Patch` value is represented here by its serialized byte size,
which is the only attribute `approx_bytes` reads from it. -/
inductive LogMsg where
  | Stdout (s : String)
  | Stderr (s : String)
  | JsonPatch (serializedSize : Nat)
  | SessionId (s : String)
  | Finished
  deriving DecidableEq, Repr

/-- Modelled from the spec: the constant added to text payload lengths by
`approx_bytes` ("the UTF-8 length of the payload plus a small constant",
spec §3).  Its exact value is not pinned down by the spec; no theorem below
depends on it. -/
def TEXT_OVERHEAD : Nat := 8

/-- Modelled from the spec: `LogMsg::approx_bytes` (in the missing
`log_msg.rs`).  Spec §3: "for text events, the UTF-8 length of the payload
plus a small constant; for `Finished`, a constant; for `JsonPatch`, the
serialized size." -/
def LogMsg.approx_bytes : LogMsg → Nat
  | .Stdout s => s.utf8ByteSize + TEXT_OVERHEAD
  | .Stderr s => s.utf8ByteSize + TEXT_OVERHEAD
  | .JsonPatch n => n
  | .SessionId s => s.utf8ByteSize + TEXT_OVERHEAD
  | .Finished => TEXT_OVERHEAD

/-! ## usize arithmetic

`msg_store.rs` uses `usize::saturating_add` and `usize::saturating_sub`;
`usize` is 64-bit on the reference platforms. -/

/-- Largest `usize` value (64-bit platform). -/
def USIZE_MAX : Nat := 2 ^ 64 - 1

/-- Rust `usize::saturating_add`. -/
def satAdd (a b : Nat) : Nat := min (a + b) USIZE_MAX

/-- Rust `usize::saturating_sub` (on `Nat` ordinary subtraction already
saturates at zero). -/
def satSub (a b : Nat) : Nat := a - b

theorem satAdd_of_le {a b : Nat} (h : a + b ≤ USIZE_MAX) : satAdd a b = a + b := by
  simp [satAdd, Nat.min_eq_left h]

/-! ## MsgStore -/

namespace MsgStore

/-- Source `msg_store.rs` line 15: `const HISTORY_BYTES: usize = 100_000 * 1024;`. -/
def HISTORY_BYTES : Nat := 100000 * 1024

/-- Source `msg_store.rs`: `struct StoredMsg { msg: LogMsg, bytes: usize }`. -/
structure StoredMsg where
  msg : LogMsg
  bytes : Nat
  deriving DecidableEq, Repr

/-- Source `msg_store.rs`: `struct Inner { history: VecDeque<StoredMsg>, total_bytes: usize }`.
The `VecDeque` is a list with its front at the head. -/
structure Inner where
  history : List StoredMsg
  total_bytes : Nat
  deriving DecidableEq, Repr

/-- The store's initial state (`MsgStore::new`): empty history, zero bytes. -/
def Inner.empty : Inner := ⟨[], 0⟩

/-- The eviction loop inside `MsgStore::push` (lines 63–69):
`while total_bytes.saturating_add(bytes) > HISTORY_BYTES { pop_front,
subtracting the popped cost; break when the deque is empty }`. -/
def evictLoop (bytes : Nat) : List StoredMsg → Nat → List StoredMsg × Nat
  | [], total => ([], total)
  | front :: rest, total =>
    if satAdd total bytes > HISTORY_BYTES then
      evictLoop bytes rest (satSub total front.bytes)
    else
      (front :: rest, total)

/-- Method `MsgStore::push` (lines 58–72): compute `bytes = msg.approx_bytes()`,
run the eviction loop, append the message, add its cost (the broadcast to
live listeners on line 59 does not touch `Inner`). -/
def push (inner : Inner) (msg : LogMsg) : Inner :=
  let bytes := msg.approx_bytes
  let r := evictLoop bytes inner.history inner.total_bytes
  { history := r.1 ++ [⟨msg, bytes⟩], total_bytes := satAdd r.2 bytes }

/-- A sequence of `push` calls starting from a given state. -/
def pushAll (inner : Inner) (msgs : List LogMsg) : Inner :=
  msgs.foldl push inner

/-- Sum of the costs of the retained entries. -/
def sumBytes (history : List StoredMsg) : Nat :=
  (history.map StoredMsg.bytes).sum

/-- Method `MsgStore::get_history` (lines 107–115): snapshot of the history,
oldest first, costs stripped. -/
def get_history (inner : Inner) : List LogMsg :=
  inner.history.map StoredMsg.msg

theorem HISTORY_BYTES_lt_USIZE_MAX : HISTORY_BYTES < USIZE_MAX := by
  norm_num [HISTORY_BYTES, USIZE_MAX]

theorem sumBytes_cons (f : StoredMsg) (rest : List StoredMsg) :
    sumBytes (f :: rest) = f.bytes + sumBytes rest := by
  simp [sumBytes]

theorem sumBytes_append (a b : List StoredMsg) :
    sumBytes (a ++ b) = sumBytes a + sumBytes b := by
  simp [sumBytes]

/-- The eviction loop keeps the byte counter equal to the sum of the
retained costs, and stops only when either the next message fits or the
history has been emptied. -/
theorem evictLoop_spec (bytes : Nat) (hist : List StoredMsg) :
    ∀ total : Nat, total = sumBytes hist →
      (evictLoop bytes hist total).2 = sumBytes (evictLoop bytes hist total).1 ∧
      (satAdd (evictLoop bytes hist total).2 bytes ≤ HISTORY_BYTES ∨
        (evictLoop bytes hist total).1 = []) := by
  induction hist with
  | nil =>
    intro total h
    refine ⟨?_, Or.inr rfl⟩
    simpa [evictLoop] using h
  | cons f rest ih =>
    intro total h
    by_cases hc : satAdd total bytes > HISTORY_BYTES
    · have hrest : satSub total f.bytes = sumBytes rest := by
        rw [h, sumBytes_cons]
        simp [satSub]
      simp only [evictLoop, if_pos hc]
      exact ih _ hrest
    · simp only [evictLoop, if_neg hc]
      exact ⟨h, Or.inl (le_of_not_lt hc)⟩

/-- Unfolding of `push` (the `let` bindings of the definition made explicit). -/
theorem push_def (inner : Inner) (msg : LogMsg) :
    push inner msg =
      { history := (evictLoop msg.approx_bytes inner.history inner.total_bytes).1 ++
          [⟨msg, msg.approx_bytes⟩],
        total_bytes :=
          satAdd (evictLoop msg.approx_bytes inner.history inner.total_bytes).2
            msg.approx_bytes } := rfl

/-- One `push` preserves the counter/sum equality unconditionally (every
`approx_bytes` cost is a `usize` value, hence at most `USIZE_MAX`), and
keeps the budget bound whenever the pushed message itself fits within the
budget. -/
theorem push_spec (inner : Inner) (msg : LogMsg)
    (hsum : inner.total_bytes = sumBytes inner.history)
    (hbU : msg.approx_bytes ≤ USIZE_MAX) :
    (push inner msg).total_bytes = sumBytes (push inner msg).history ∧
    (msg.approx_bytes ≤ HISTORY_BYTES →
      (push inner msg).total_bytes ≤ HISTORY_BYTES) := by
  obtain ⟨h1, h2⟩ := evictLoop_spec msg.approx_bytes inner.history inner.total_bytes hsum
  have hHU := HISTORY_BYTES_lt_USIZE_MAX
  rw [push_def]
  have hsingle : sumBytes [(⟨msg, msg.approx_bytes⟩ : StoredMsg)] = msg.approx_bytes := by
    simp [sumBytes]
  rcases h2 with hle | hnil
  · have hfit : (evictLoop msg.approx_bytes inner.history inner.total_bytes).2 +
        msg.approx_bytes ≤ HISTORY_BYTES := by
      unfold satAdd at hle; omega
    have hadd : satAdd (evictLoop msg.approx_bytes inner.history inner.total_bytes).2
        msg.approx_bytes =
        (evictLoop msg.approx_bytes inner.history inner.total_bytes).2 +
          msg.approx_bytes :=
      satAdd_of_le (by omega)
    refine ⟨?_, fun _ => ?_⟩
    · show satAdd (evictLoop msg.approx_bytes inner.history inner.total_bytes).2
          msg.approx_bytes =
        sumBytes ((evictLoop msg.approx_bytes inner.history inner.total_bytes).1 ++
          [⟨msg, msg.approx_bytes⟩])
      rw [hadd, sumBytes_append, hsingle, h1]
    · show satAdd (evictLoop msg.approx_bytes inner.history inner.total_bytes).2
          msg.approx_bytes ≤ HISTORY_BYTES
      rw [hadd]; exact hfit
  · have hzero : (evictLoop msg.approx_bytes inner.history inner.total_bytes).2 = 0 := by
      rw [h1, hnil]; rfl
    have hadd : satAdd (evictLoop msg.approx_bytes inner.history inner.total_bytes).2
        msg.approx_bytes = msg.approx_bytes := by
      rw [hzero, satAdd_of_le (by omega : 0 + msg.approx_bytes ≤ USIZE_MAX),
        Nat.zero_add]
    refine ⟨?_, fun hbH => ?_⟩
    · show satAdd (evictLoop msg.approx_bytes inner.history inner.total_bytes).2
          msg.approx_bytes =
        sumBytes ((evictLoop msg.approx_bytes inner.history inner.total_bytes).1 ++
          [⟨msg, msg.approx_bytes⟩])
      rw [hadd, hnil, List.nil_append, hsingle]
    · show satAdd (evictLoop msg.approx_bytes inner.history inner.total_bytes).2
          msg.approx_bytes ≤ HISTORY_BYTES
      rw [hadd]; exact hbH

/-- Pushing a message whose cost exceeds the budget onto any consistent
state empties the history (the eviction loop pops everything and breaks on
the empty deque), appends the message anyway, and leaves `total_bytes`
equal to exactly that message's cost. -/
theorem push_oversized (inner : Inner) (msg : LogMsg)
    (hsum : inner.total_bytes = sumBytes inner.history)
    (hbU : msg.approx_bytes ≤ USIZE_MAX)
    (hover : HISTORY_BYTES < msg.approx_bytes) :
    (push inner msg).history = [⟨msg, msg.approx_bytes⟩] ∧
    (push inner msg).total_bytes = msg.approx_bytes := by
  obtain ⟨h1, h2⟩ := evictLoop_spec msg.approx_bytes inner.history inner.total_bytes hsum
  have hHU := HISTORY_BYTES_lt_USIZE_MAX
  have hnil : (evictLoop msg.approx_bytes inner.history inner.total_bytes).1 = [] := by
    rcases h2 with hle | hnil
    · exfalso; unfold satAdd at hle; omega
    · exact hnil
  have hzero : (evictLoop msg.approx_bytes inner.history inner.total_bytes).2 = 0 := by
    rw [h1, hnil]; rfl
  rw [push_def]
  constructor
  · show (evictLoop msg.approx_bytes inner.history inner.total_bytes).1 ++
        [⟨msg, msg.approx_bytes⟩] = [⟨msg, msg.approx_bytes⟩]
    rw [hnil, List.nil_append]
  · show satAdd (evictLoop msg.approx_bytes inner.history inner.total_bytes).2
        msg.approx_bytes = msg.approx_bytes
    rw [hzero, satAdd_of_le (by omega : 0 + msg.approx_bytes ≤ USIZE_MAX),
      Nat.zero_add]

/-- Invariant propagation along any sequence of pushes: the counter/sum
equality holds unconditionally (costs being `usize` values), and the budget
bound holds additionally when the start state is within budget and every
pushed cost fits the budget. -/
theorem pushAll_spec (msgs : List LogMsg) :
    ∀ inner : Inner,
      inner.total_bytes = sumBytes inner.history →
      (∀ m ∈ msgs, m.approx_bytes ≤ USIZE_MAX) →
      (pushAll inner msgs).total_bytes = sumBytes (pushAll inner msgs).history ∧
      (inner.total_bytes ≤ HISTORY_BYTES →
        (∀ m ∈ msgs, m.approx_bytes ≤ HISTORY_BYTES) →
        (pushAll inner msgs).total_bytes ≤ HISTORY_BYTES) := by
  induction msgs with
  | nil => intro inner hsum _; exact ⟨hsum, fun hle _ => hle⟩
  | cons m rest ih =>
    intro inner hsum hU
    have hmU : m.approx_bytes ≤ USIZE_MAX := hU m (List.mem_cons_self m rest)
    have hrestU : ∀ x ∈ rest, x.approx_bytes ≤ USIZE_MAX := fun x hx =>
      hU x (List.mem_cons_of_mem m hx)
    obtain ⟨heq, hbnd⟩ := push_spec inner m hsum hmU
    have ihr := ih (push inner m) heq hrestU
    constructor
    · simpa [pushAll] using ihr.1
    · intro _ hb
      have hmH : m.approx_bytes ≤ HISTORY_BYTES := hb m (List.mem_cons_self m rest)
      have hrestH : ∀ x ∈ rest, x.approx_bytes ≤ HISTORY_BYTES := fun x hx =>
        hb x (List.mem_cons_of_mem m hx)
      simpa [pushAll] using ihr.2 (hbnd hmH) hrestH

end MsgStore

open MsgStore in
/-- C1 (counterexample): the claim "after each push `total_bytes` ≤
`HISTORY_BYTES`" is false as stated: pushing a single message whose
`approx_bytes` cost exceeds the budget (here a `JsonPatch` of serialized
size `HISTORY_BYTES + 1`) leaves that message alone in history with
`total_bytes` equal to its cost, strictly above the budget, because the
eviction loop empties the history, breaks, and the push still appends. -/
theorem C1_budget_counterexample :
    (pushAll Inner.empty [LogMsg.JsonPatch (HISTORY_BYTES + 1)]).total_bytes
        > HISTORY_BYTES ∧
    (pushAll Inner.empty [LogMsg.JsonPatch (HISTORY_BYTES + 1)]).total_bytes =
        HISTORY_BYTES + 1 ∧
    get_history (pushAll Inner.empty [LogMsg.JsonPatch (HISTORY_BYTES + 1)]) =
        [LogMsg.JsonPatch (HISTORY_BYTES + 1)] := by
  refine ⟨by decide, by decide, by decide⟩

open MsgStore in
/-- C1 (amended): for every sequence of `MsgStore::push` calls (each cost
being a `usize` value, i.e. at most `USIZE_MAX`), after each push settles
the store's `total_bytes` equals the sum of the `approx_bytes` costs of the
entries retained in history — unconditionally; provided every pushed
message's own cost is at most `HISTORY_BYTES`, `total_bytes` also stays at
or below the budget; and pushing a single message whose cost exceeds the
budget leaves that message alone in history with `total_bytes` equal to its
cost, above the budget. -/
theorem C1_push_invariant (msgs : List LogMsg)
    (hU : ∀ m ∈ msgs, m.approx_bytes ≤ USIZE_MAX) :
    ((pushAll Inner.empty msgs).total_bytes =
        sumBytes (pushAll Inner.empty msgs).history) ∧
    ((∀ m ∈ msgs, m.approx_bytes ≤ HISTORY_BYTES) →
      (pushAll Inner.empty msgs).total_bytes ≤ HISTORY_BYTES) ∧
    (∀ (inner : Inner) (msg : LogMsg),
      inner.total_bytes = sumBytes inner.history →
      msg.approx_bytes ≤ USIZE_MAX →
      HISTORY_BYTES < msg.approx_bytes →
      (push inner msg).history = [⟨msg, msg.approx_bytes⟩] ∧
      (push inner msg).total_bytes = msg.approx_bytes) :=
  ⟨(pushAll_spec msgs Inner.empty rfl hU).1,
   fun hb => (pushAll_spec msgs Inner.empty rfl hU).2 (Nat.zero_le _) hb,
   fun inner msg hsum hbU hover => push_oversized inner msg hsum hbU hover⟩

open MsgStore in
/-- Witness for C1: the sum equality and budget bound at the concrete
within-budget push sequence `[Stdout "a", Finished]`, and the oversized
case at a concrete `JsonPatch` of serialized size `HISTORY_BYTES + 1`
pushed onto the empty store. -/
theorem C1_push_invariant_witness :
    (pushAll Inner.empty [LogMsg.Stdout "a", LogMsg.Finished]).total_bytes =
        sumBytes (pushAll Inner.empty [LogMsg.Stdout "a", LogMsg.Finished]).history ∧
    (pushAll Inner.empty [LogMsg.Stdout "a", LogMsg.Finished]).total_bytes ≤
        HISTORY_BYTES ∧
    (push Inner.empty (LogMsg.JsonPatch (HISTORY_BYTES + 1))).history =
        [⟨LogMsg.JsonPatch (HISTORY_BYTES + 1), HISTORY_BYTES + 1⟩] ∧
    (push Inner.empty (LogMsg.JsonPatch (HISTORY_BYTES + 1))).total_bytes =
        HISTORY_BYTES + 1 :=
  ⟨(C1_push_invariant [LogMsg.Stdout "a", LogMsg.Finished] (by decide)).1,
   (C1_push_invariant [LogMsg.Stdout "a", LogMsg.Finished] (by decide)).2.1 (by decide),
   (C1_push_invariant [] (by decide)).2.2 Inner.empty
     (LogMsg.JsonPatch (HISTORY_BYTES + 1)) rfl (by decide) (by decide)⟩

namespace MsgStore

/-- Method `MsgStore::history_plus_stream` (lines 119–129).  The body evaluates the
tuple `(self.get_history(), self.get_receiver())` left to right: the history
snapshot is taken FIRST and the live broadcast receiver is created SECOND,
with no lock held across the two calls.  Model: `pushes` is the global push
order of the session; the snapshot captures the store's state after the
first `snapIdx` pushes have settled; the receiver is created once `subIdx`
pushes (`snapIdx ≤ subIdx`) have broadcast, so it receives exactly the
pushes from index `subIdx` on.  The resulting stream is the snapshot
followed by the live tail. -/
def history_plus_stream (pushes : List LogMsg) (snapIdx subIdx : Nat) : List LogMsg :=
  get_history (pushAll Inner.empty (pushes.take snapIdx)) ++ pushes.drop subIdx

/-- The `matches!(res, Ok(LogMsg::Finished))` test in the chunked streams. -/
def isFinished : LogMsg → Bool
  | .Finished => true
  | _ => false

/-- The `filter_map` arm of `stdout_chunked_stream`: keep `Stdout` payloads. -/
def stdoutPayload : LogMsg → Option String
  | .Stdout s => some s
  | _ => none

/-- The `filter_map` arm of `stderr_chunked_stream`: keep `Stderr` payloads. -/
def stderrPayload : LogMsg → Option String
  | .Stderr s => some s
  | _ => none

/-- The combinator stage of `MsgStore::stdout_chunked_stream` (lines
133–145): `take_while(|res| !matches!(res, Ok(Finished))).filter_map(Stdout
payload)`, applied to the sequence of messages the underlying
history-plus-live stream yields to this subscriber.  The full method is
`stdout_chunked_stream` below, which composes this stage with
`history_plus_stream`. -/
def stdout_chunked (received : List LogMsg) : List String :=
  (received.takeWhile fun m => !isFinished m).filterMap stdoutPayload

/-- The combinator stage of `MsgStore::stderr_chunked_stream` (lines
149–161); the full method is `stderr_chunked_stream` below. -/
def stderr_chunked (received : List LogMsg) : List String :=
  (received.takeWhile fun m => !isFinished m).filterMap stderrPayload

/-- Method `MsgStore::stdout_chunked_stream` (lines 133–145) in full: the
snapshot-then-subscribe `history_plus_stream` (its seam indices as in the
model above) composed with the cut-at-`Finished` / `Stdout`-payload
stage. -/
def stdout_chunked_stream (pushes : List LogMsg) (snapIdx subIdx : Nat) : List String :=
  stdout_chunked (history_plus_stream pushes snapIdx subIdx)

/-- Method `MsgStore::stderr_chunked_stream` (lines 149–161) in full. -/
def stderr_chunked_stream (pushes : List LogMsg) (snapIdx subIdx : Nat) : List String :=
  stderr_chunked (history_plus_stream pushes snapIdx subIdx)

end MsgStore

open MsgStore in
/-- C2 (failing execution): `history_plus_stream` snapshots history before
subscribing, so a message whose push completes between the two steps is in
neither the snapshot nor the live tail.  Concretely: push `Stdout "a"`
(index 0); the snapshot is taken (`snapIdx = 1`); push `Stdout "b"` (index
1); the live receiver is created (`subIdx = 2`).  `Stdout "b"` completed
before the receiver was created, yet the combined stream is `[Stdout "a"]`
and `Stdout "b"` is lost — contradicting "no message lost". -/
theorem C2_seam_loss :
    history_plus_stream [LogMsg.Stdout "a", LogMsg.Stdout "b"] 1 2 =
        [LogMsg.Stdout "a"] ∧
    LogMsg.Stdout "b" ∉ history_plus_stream [LogMsg.Stdout "a", LogMsg.Stdout "b"] 1 2 := by
  constructor
  · decide
  · decide

open MsgStore in
/-- C5 (failing run): the chunked streams are built on the snapshot-first
`history_plus_stream`, so the "terminates iff a `Finished` is pushed" claim
fails in the seam window.  Sequentially — snapshot and subscription after
all three pushes (`snapIdx = subIdx = 3`) — the spec's scenario holds:
after `Stdout "x"`, `Finished`, `Stdout "y"` the stdout stream yields
exactly `"x"` and ends at the `Finished`.  But when the `Finished` push
completes between the history snapshot (`snapIdx = 1`, after `Stdout "x"`)
and the live subscription (`subIdx = 2`), the subscriber's sequence
contains no `Finished` at all, and the stdout stream yields `"x"` and then
the later `"y"`: it does not terminate at the pushed `Finished` (it ends
only when the broadcast channel itself closes).  The stderr stream loses
the seam `Finished` the same way. -/
theorem C5_finished_lost_in_seam :
    stdout_chunked_stream [LogMsg.Stdout "x", LogMsg.Finished, LogMsg.Stdout "y"]
        3 3 = ["x"] ∧
    history_plus_stream [LogMsg.Stdout "x", LogMsg.Finished, LogMsg.Stdout "y"]
        1 2 = [LogMsg.Stdout "x", LogMsg.Stdout "y"] ∧
    LogMsg.Finished ∉ history_plus_stream
        [LogMsg.Stdout "x", LogMsg.Finished, LogMsg.Stdout "y"] 1 2 ∧
    stdout_chunked_stream [LogMsg.Stdout "x", LogMsg.Finished, LogMsg.Stdout "y"]
        1 2 = ["x", "y"] ∧
    stderr_chunked_stream [LogMsg.Stderr "e", LogMsg.Finished, LogMsg.Stderr "f"]
        1 2 = ["e", "f"] := by
  refine ⟨by decide, by decide, by decide, by decide, by decide⟩

open MsgStore in
/-- C9 (counterexample): the default history budget is not 100 MiB: the
constant `HISTORY_BYTES` in `msg_store.rs` is `100_000 * 1024 = 102_400_000`
bytes, not `104_857_600`. -/
theorem C9_budget_counterexample : HISTORY_BYTES ≠ 104857600 := by
  norm_num [HISTORY_BYTES]

open MsgStore in
/-- C9 (amended): the default per-session history budget used by
`MsgStore::push` as the eviction threshold equals `100_000 * 1024 =
102_400_000` bytes (≈ 97.66 MiB), the value of `HISTORY_BYTES`. -/
theorem C9_history_bytes_value : HISTORY_BYTES = 102400000 := by
  norm_num [HISTORY_BYTES]

/-! ## Wire protocol (`crates/remote-agents-transport/src/protocol.rs`)

Payload bytes are `Nat` values below 256.  `BASE64` is the `base64` crate's
`general_purpose::STANDARD` engine: the RFC 4648 standard alphabet with
mandatory padding; its decoder requires canonical padding and rejects
non-zero trailing bits. -/

namespace Transport

/-- The RFC 4648 standard alphabet: sextet value to character. -/
def b64Char (n : Nat) : Char :=
  if n < 26 then Char.ofNat (65 + n)
  else if n < 52 then Char.ofNat (97 + (n - 26))
  else if n < 62 then Char.ofNat (48 + (n - 52))
  else if n = 62 then '+'
  else '/'

/-- The decoder's table: character to sextet value (ASCII ranges `A`–`Z`,
`a`–`z`, `0`–`9`, `+`, `/`); everything else is invalid. -/
def b64Index (c : Char) : Option Nat :=
  if 65 ≤ c.toNat ∧ c.toNat ≤ 90 then some (c.toNat - 65)
  else if 97 ≤ c.toNat ∧ c.toNat ≤ 122 then some (c.toNat - 97 + 26)
  else if 48 ≤ c.toNat ∧ c.toNat ≤ 57 then some (c.toNat - 48 + 52)
  else if c.toNat = 43 then some 62
  else if c.toNat = 47 then some 63
  else none

/-- Encoding (`BASE64.encode`): bytes to characters, three bytes per four characters,
final group padded with `=`. -/
def b64EncodeChars : List Nat → List Char
  | [] => []
  | [b1] => [b64Char (b1 / 4), b64Char (b1 % 4 * 16), '=', '=']
  | [b1, b2] =>
      [b64Char (b1 / 4), b64Char (b1 % 4 * 16 + b2 / 16), b64Char (b2 % 16 * 4), '=']
  | b1 :: b2 :: b3 :: rest =>
      b64Char (b1 / 4) :: b64Char (b1 % 4 * 16 + b2 / 16) ::
        b64Char (b2 % 16 * 4 + b3 / 64) :: b64Char (b3 % 64) :: b64EncodeChars rest

/-- Decoding (`BASE64.decode`) of the `STANDARD` engine: four characters per three
bytes; padding only in the last group, canonical (`RequireCanonical`), and
non-zero trailing bits rejected (`decode_allow_trailing_bits = false`);
inputs whose length is not a multiple of four are invalid. -/
def b64DecodeChars : List Char → Option (List Nat)
  | [] => some []
  | c1 :: c2 :: c3 :: c4 :: rest =>
    match b64Index c1, b64Index c2 with
    | some s1, some s2 =>
      if c3 = '=' then
        if c4 = '=' ∧ rest = [] ∧ s2 % 16 = 0 then
          some [s1 * 4 + s2 / 16]
        else none
      else
        match b64Index c3 with
        | some s3 =>
          if c4 = '=' then
            if rest = [] ∧ s3 % 4 = 0 then
              some [s1 * 4 + s2 / 16, s2 % 16 * 16 + s3 / 4]
            else none
          else
            match b64Index c4 with
            | some s4 =>
              match b64DecodeChars rest with
              | some bs =>
                  some ((s1 * 4 + s2 / 16) :: (s2 % 16 * 16 + s3 / 4) ::
                    (s3 % 4 * 64 + s4) :: bs)
              | none => none
            | none => none
        | none => none
    | _, _ => none
  | _ => none

/-- Decoding inverts the alphabet on every sextet value. -/
theorem b64Index_b64Char_fin : ∀ n : Fin 64, b64Index (b64Char n.val) = some n.val := by
  decide

theorem b64Index_b64Char {n : Nat} (h : n < 64) : b64Index (b64Char n) = some n :=
  b64Index_b64Char_fin ⟨n, h⟩

/-- No alphabet character is the padding character. -/
theorem b64Char_ne_pad_fin : ∀ n : Fin 64, b64Char n.val ≠ '=' := by
  decide

theorem b64Char_ne_pad {n : Nat} (h : n < 64) : b64Char n ≠ '=' :=
  b64Char_ne_pad_fin ⟨n, h⟩

/-- A successful table lookup comes from an alphabet character: the sextet
is below 64 and re-encoding it gives the character back. -/
theorem b64Index_spec (c : Char) (s : Nat) (h : b64Index c = some s) :
    s < 64 ∧ b64Char s = c := by
  have hofnat := Char.ofNat_toNat c
  unfold b64Index at h
  split_ifs at h with h1 h2 h3 h4 h5 <;>
    simp only [Option.some.injEq] at h
  · have hs : s = c.toNat - 65 := h.symm
    subst hs
    refine ⟨by omega, ?_⟩
    unfold b64Char
    rw [if_pos (by omega)]
    have : 65 + (c.toNat - 65) = c.toNat := by omega
    rw [this, hofnat]
  · have hs : s = c.toNat - 97 + 26 := h.symm
    subst hs
    refine ⟨by omega, ?_⟩
    unfold b64Char
    rw [if_neg (by omega), if_pos (by omega)]
    have : 97 + (c.toNat - 97 + 26 - 26) = c.toNat := by omega
    rw [this, hofnat]
  · have hs : s = c.toNat - 48 + 52 := h.symm
    subst hs
    refine ⟨by omega, ?_⟩
    unfold b64Char
    rw [if_neg (by omega), if_neg (by omega), if_pos (by omega)]
    have : 48 + (c.toNat - 48 + 52 - 52) = c.toNat := by omega
    rw [this, hofnat]
  · have hs : s = 62 := h.symm
    subst hs
    refine ⟨by omega, ?_⟩
    unfold b64Char
    rw [if_neg (by omega), if_neg (by omega), if_neg (by omega), if_pos rfl]
    have : (43 : Nat) = c.toNat := by omega
    calc ('+' : Char) = Char.ofNat 43 := by decide
      _ = Char.ofNat c.toNat := by rw [this]
      _ = c := hofnat
  · have hs : s = 63 := h.symm
    subst hs
    refine ⟨by omega, ?_⟩
    unfold b64Char
    rw [if_neg (by omega), if_neg (by omega), if_neg (by omega), if_neg (by omega)]
    calc ('/' : Char) = Char.ofNat 47 := by decide
      _ = Char.ofNat c.toNat := by rw [show (47 : Nat) = c.toNat by omega]
      _ = c := hofnat

/-- Round trip: decoding an encoding returns the original bytes. -/
theorem b64_decode_encode : ∀ bs : List Nat, (∀ b ∈ bs, b < 256) →
    b64DecodeChars (b64EncodeChars bs) = some bs
  | [], _ => by simp [b64EncodeChars, b64DecodeChars]
  | [b1], h => by
    have hb1 : b1 < 256 := h b1 (by simp)
    have h1 := b64Index_b64Char (n := b1 / 4) (by omega)
    have h2 := b64Index_b64Char (n := b1 % 4 * 16) (by omega)
    have e1 : b1 % 4 * 16 % 16 = 0 := by omega
    have e2 : b1 / 4 * 4 + b1 % 4 * 16 / 16 = b1 := by omega
    simp [b64EncodeChars, b64DecodeChars, h1, h2, e1, e2]
    omega
  | [b1, b2], h => by
    have hb1 : b1 < 256 := h b1 (by simp)
    have hb2 : b2 < 256 := h b2 (by simp)
    have h1 := b64Index_b64Char (n := b1 / 4) (by omega)
    have h2 := b64Index_b64Char (n := b1 % 4 * 16 + b2 / 16) (by omega)
    have h3 := b64Index_b64Char (n := b2 % 16 * 4) (by omega)
    have hne3 := b64Char_ne_pad (n := b2 % 16 * 4) (by omega)
    have e1 : b2 % 16 * 4 % 4 = 0 := by omega
    have e2 : b1 / 4 * 4 + (b1 % 4 * 16 + b2 / 16) / 16 = b1 := by omega
    have e3 : (b1 % 4 * 16 + b2 / 16) % 16 * 16 + b2 % 16 * 4 / 4 = b2 := by omega
    simp [b64EncodeChars, b64DecodeChars, h1, h2, h3, hne3, e1, e2, e3]
    omega
  | b1 :: b2 :: b3 :: rest, h => by
    have hb1 : b1 < 256 := h b1 (by simp)
    have hb2 : b2 < 256 := h b2 (by simp)
    have hb3 : b3 < 256 := h b3 (by simp)
    have hrest : ∀ b ∈ rest, b < 256 := fun b hb =>
      h b (by simp at hb ⊢; tauto)
    have ih := b64_decode_encode rest hrest
    have h1 := b64Index_b64Char (n := b1 / 4) (by omega)
    have h2 := b64Index_b64Char (n := b1 % 4 * 16 + b2 / 16) (by omega)
    have h3 := b64Index_b64Char (n := b2 % 16 * 4 + b3 / 64) (by omega)
    have h4 := b64Index_b64Char (n := b3 % 64) (by omega)
    have hne3 := b64Char_ne_pad (n := b2 % 16 * 4 + b3 / 64) (by omega)
    have hne4 := b64Char_ne_pad (n := b3 % 64) (by omega)
    have e1 : b1 / 4 * 4 + (b1 % 4 * 16 + b2 / 16) / 16 = b1 := by omega
    have e2 : (b1 % 4 * 16 + b2 / 16) % 16 * 16 + (b2 % 16 * 4 + b3 / 64) / 4 = b2 := by
      omega
    have e3 : (b2 % 16 * 4 + b3 / 64) % 4 * 64 + b3 % 64 = b3 := by omega
    simp [b64EncodeChars, b64DecodeChars, h1, h2, h3, h4, hne3, hne4, ih, e1, e2, e3]

/-- Soundness: the strict decoder succeeds only on canonical encodings, and
the decoded bytes are below 256. -/
theorem b64_encode_decode : ∀ (cs : List Char) (bs : List Nat),
    b64DecodeChars cs = some bs →
    (∀ b ∈ bs, b < 256) ∧ b64EncodeChars bs = cs
  | [], bs, h => by
    simp only [b64DecodeChars, Option.some.injEq] at h
    subst h
    exact ⟨by simp, rfl⟩
  | [c1], bs, h => by simp [b64DecodeChars] at h
  | [c1, c2], bs, h => by simp [b64DecodeChars] at h
  | [c1, c2, c3], bs, h => by simp [b64DecodeChars] at h
  | c1 :: c2 :: c3 :: c4 :: rest, bs, h => by
    simp only [b64DecodeChars] at h
    cases hi1 : b64Index c1 with
    | none => simp only [hi1] at h; exact Option.noConfusion h
    | some s1 =>
    cases hi2 : b64Index c2 with
    | none => simp only [hi1, hi2] at h; exact Option.noConfusion h
    | some s2 =>
    simp only [hi1, hi2] at h
    obtain ⟨hs1, hc1⟩ := b64Index_spec c1 s1 hi1
    obtain ⟨hs2, hc2⟩ := b64Index_spec c2 s2 hi2
    by_cases hpad3 : c3 = '='
    · rw [if_pos hpad3] at h
      by_cases hcond : c4 = '=' ∧ rest = [] ∧ s2 % 16 = 0
      · rw [if_pos hcond] at h
        obtain ⟨hc4, hrest, htrail⟩ := hcond
        simp only [Option.some.injEq] at h
        subst h hrest hc4 hpad3
        have e1 : (s1 * 4 + s2 / 16) / 4 = s1 := by omega
        have e2 : (s1 * 4 + s2 / 16) % 4 * 16 = s2 := by omega
        refine ⟨by intro b hb; simp at hb; omega, ?_⟩
        simp [b64EncodeChars, e1, e2, hc1, hc2]
      · rw [if_neg hcond] at h; cases h
    · rw [if_neg hpad3] at h
      cases hi3 : b64Index c3 with
      | none => simp only [hi3] at h; exact Option.noConfusion h
      | some s3 =>
      simp only [hi3] at h
      obtain ⟨hs3, hc3⟩ := b64Index_spec c3 s3 hi3
      by_cases hpad4 : c4 = '='
      · rw [if_pos hpad4] at h
        by_cases hcond : rest = [] ∧ s3 % 4 = 0
        · rw [if_pos hcond] at h
          obtain ⟨hrest, htrail⟩ := hcond
          simp only [Option.some.injEq] at h
          subst h hrest hpad4
          have e1 : (s1 * 4 + s2 / 16) / 4 = s1 := by omega
          have e2 : (s1 * 4 + s2 / 16) % 4 * 16 + (s2 % 16 * 16 + s3 / 4) / 16 = s2 := by
            omega
          have e3 : (s2 % 16 * 16 + s3 / 4) % 16 * 4 = s3 := by omega
          refine ⟨by intro b hb; simp at hb; rcases hb with hb | hb <;> omega, ?_⟩
          simp [b64EncodeChars, e1, e2, e3, hc1, hc2, hc3]
        · rw [if_neg hcond] at h; cases h
      · rw [if_neg hpad4] at h
        cases hi4 : b64Index c4 with
        | none => simp only [hi4] at h; exact Option.noConfusion h
        | some s4 =>
        simp only [hi4] at h
        obtain ⟨hs4, hc4⟩ := b64Index_spec c4 s4 hi4
        cases hdec : b64DecodeChars rest with
        | none => simp only [hdec] at h; exact Option.noConfusion h
        | some tailBytes =>
        simp only [hdec, Option.some.injEq] at h
        obtain ⟨htl, henc⟩ := b64_encode_decode rest tailBytes hdec
        subst h
        have e1 : (s1 * 4 + s2 / 16) / 4 = s1 := by omega
        have e2 : (s1 * 4 + s2 / 16) % 4 * 16 + (s2 % 16 * 16 + s3 / 4) / 16 = s2 := by
          omega
        have e3 : (s2 % 16 * 16 + s3 / 4) % 16 * 4 + (s3 % 4 * 64 + s4) / 64 = s3 := by
          omega
        have e4 : (s3 % 4 * 64 + s4) % 64 = s4 := by omega
        constructor
        · intro b hb
          simp only [List.mem_cons] at hb
          rcases hb with hb | hb | hb | hb
          · omega
          · omega
          · omega
          · exact htl b hb
        · simp [b64EncodeChars, e1, e2, e3, e4, hc1, hc2, hc3, hc4, henc]

/-- Source `protocol.rs` lines 7–22: `enum ClientMessage`. -/
inductive ClientMessage where
  | Input (data : String)
  | Resize (cols rows : Nat)
  | StartSession (working_dir prompt : String)
  | ContinueSession (session_id prompt : String)
  | Interrupt
  | Ping
  deriving DecidableEq, Repr

/-- Constructor `ClientMessage::input` (lines 27–31): base64-encode the bytes into an
`Input` message. -/
def ClientMessage.input (data : List Nat) : ClientMessage :=
  .Input (String.mk (b64EncodeChars data))

/-- Method `ClientMessage::decode_input` (lines 35–41): on an `Input` message,
decode its `data` field from base64; on every other variant return `None`. -/
def ClientMessage.decode_input : ClientMessage → Option (List Nat)
  | .Input data => b64DecodeChars data.data
  | _ => none

/-- Source `protocol.rs` lines 45–58: `enum ServerMessage`. -/
inductive ServerMessage where
  | Output (data : String)
  | SessionStarted (session_id : String)
  | SessionEnded (session_id : String) (success : Bool)
  | Error (message : String)
  | Pong
  deriving DecidableEq, Repr

/-- Constructor `ServerMessage::output` (lines 63–67). -/
def ServerMessage.output (data : List Nat) : ServerMessage :=
  .Output (String.mk (b64EncodeChars data))

/-- Method `ServerMessage::decode_output` (lines 71–77). -/
def ServerMessage.decode_output : ServerMessage → Option (List Nat)
  | .Output data => b64DecodeChars data.data
  | _ => none

end Transport

open Transport in
/-- C6: for every byte string `b` (bytes are values below 256), decoding the
wire message built from it returns exactly `b`:
`ClientMessage::decode_input(ClientMessage::input(b)) == Some(b)` and
`ServerMessage::decode_output(ServerMessage::output(b)) == Some(b)`. -/
theorem C6_wire_roundtrip (bytes : List Nat) (h : ∀ b ∈ bytes, b < 256) :
    (ClientMessage.input bytes).decode_input = some bytes ∧
    (ServerMessage.output bytes).decode_output = some bytes := by
  have hdec := b64_decode_encode bytes h
  exact ⟨hdec, hdec⟩

open Transport in
/-- Witness for C6 at the spec's concrete scenario 3: the byte string
`b"\x00\xff\x10"`. -/
theorem C6_wire_roundtrip_witness :
    (ClientMessage.input [0, 255, 16]).decode_input = some [0, 255, 16] ∧
    (ServerMessage.output [0, 255, 16]).decode_output = some [0, 255, 16] :=
  C6_wire_roundtrip [0, 255, 16] (by decide)

open Transport in
/-- C10: `decode_input` returns `None` on every non-`Input` variant and
`decode_output` returns `None` on every non-`Output` variant; and whenever
decoding succeeds the `data` field was valid RFC 4648 standard base64 (it
is the canonical encoding of the returned bytes, which are all below 256) —
contrapositively, invalid base64 yields `None`.  Both functions are total
Lean functions into `Option`, the embedding of "never panics". -/
theorem C10_decode_errors :
    (∀ cols rows, (ClientMessage.Resize cols rows).decode_input = none) ∧
    (∀ wd p, (ClientMessage.StartSession wd p).decode_input = none) ∧
    (∀ sid p, (ClientMessage.ContinueSession sid p).decode_input = none) ∧
    ClientMessage.Interrupt.decode_input = none ∧
    ClientMessage.Ping.decode_input = none ∧
    (∀ sid, (ServerMessage.SessionStarted sid).decode_output = none) ∧
    (∀ sid ok, (ServerMessage.SessionEnded sid ok).decode_output = none) ∧
    (∀ m, (ServerMessage.Error m).decode_output = none) ∧
    ServerMessage.Pong.decode_output = none ∧
    (∀ (data : String) (bs : List Nat),
      (ClientMessage.Input data).decode_input = some bs →
      (∀ b ∈ bs, b < 256) ∧ String.mk (b64EncodeChars bs) = data) ∧
    (∀ (data : String) (bs : List Nat),
      (ServerMessage.Output data).decode_output = some bs →
      (∀ b ∈ bs, b < 256) ∧ String.mk (b64EncodeChars bs) = data) := by
  refine ⟨fun _ _ => rfl, fun _ _ => rfl, fun _ _ => rfl, rfl, rfl,
    fun _ => rfl, fun _ _ => rfl, fun _ => rfl, rfl, ?_, ?_⟩
  · intro data bs h
    obtain ⟨hlt, henc⟩ := b64_encode_decode data.data bs h
    refine ⟨hlt, ?_⟩
    rw [henc]
  · intro data bs h
    obtain ⟨hlt, henc⟩ := b64_encode_decode data.data bs h
    refine ⟨hlt, ?_⟩
    rw [henc]

open Transport in
/-- Witness for C10: non-`Input`/non-`Output` variants decode to `None`, a
non-base64 `data` field (`"!"`) decodes to `None`, and the soundness parts
applied at the valid encoding `"AA=="` recover its canonical form. -/
theorem C10_decode_errors_witness :
    (ClientMessage.Resize 80 24).decode_input = none ∧
    (ServerMessage.Error "oops").decode_output = none ∧
    (ClientMessage.Input "!").decode_input = none ∧
    String.mk (b64EncodeChars [0]) = "AA==" :=
  ⟨C10_decode_errors.1 80 24,
   C10_decode_errors.2.2.2.2.2.2.2.1 "oops",
   by decide,
   (C10_decode_errors.2.2.2.2.2.2.2.2.2.1 "AA==" [0] (by decide)).2⟩

/-! ## Tool approval dispatch
(`crates/remote-agents-executor/src/claude/client.rs` and `protocol.rs`)

`serde_json::Value` payloads are opaque to the dispatch logic, so the
definitions are parametric in the payload type `V`. -/

namespace Claude

/-- Source `approvals.rs` lines 40–48: `enum ApprovalError` with its `thiserror`
display strings. -/
inductive ApprovalError where
  | ServiceUnavailable
  | RequestFailed (s : String)
  | TimedOut
  deriving DecidableEq, Repr

/-- The `#[error(...)]` display of `ApprovalError`. -/
def ApprovalError.toString : ApprovalError → String
  | .ServiceUnavailable => "Approval service unavailable"
  | .RequestFailed s => "Approval request failed: " ++ s
  | .TimedOut => "Approval request timed out"

/-- Source `approvals.rs` lines 23–37: `enum ApprovalResult`. -/
inductive ApprovalResult (V : Type) where
  | Allow (updated_input : V)
  | Deny (message : String) (interrupt : Option Bool)

/-- Source `claude/types.rs` (via its uses in `client.rs`): `PermissionResult` with
`Allow { updated_input, updated_permissions }` and
`Deny { message, interrupt }`; the code only ever constructs
`updated_permissions: None`, so its payload type is irrelevant. -/
inductive PermissionResult (V : Type) where
  | Allow (updated_input : V) (updated_permissions : Option Unit)
  | Deny (message : String) (interrupt : Option Bool)

/-- Source `client.rs` lines 118–126: `enum ClientError` with its `thiserror`
display strings. -/
inductive ClientError where
  | ApprovalUnavailable
  | ApprovalFailed (s : String)
  | Io (s : String)

/-- The `#[error(...)]` display of `ClientError`. -/
def ClientError.toString : ClientError → String
  | .ApprovalUnavailable => "Approval handler unavailable"
  | .ApprovalFailed s => "Approval failed: " ++ s
  | .Io s => "I/O error: " ++ s

/-- Trait method `ApprovalHandler::request_approval(tool_name, tool_input, tool_call_id)`
(`approvals.rs` lines 55–71): the handler is an arbitrary function returning
a verdict or an error. -/
def ApprovalHandler (V : Type) : Type :=
  String → V → String → Except ApprovalError (ApprovalResult V)

/-- Source `client.rs` lines 13–17: the client holds an optional approval handler
and the derived `auto_approve` flag. -/
structure ClaudeClient (V : Type) where
  approval_handler : Option (ApprovalHandler V)
  auto_approve : Bool

/-- Constructor `ClaudeClient::new` (lines 22–32): `auto_approve` is set iff no handler
is configured. -/
def ClaudeClient.new {V : Type} (handler : Option (ApprovalHandler V)) : ClaudeClient V :=
  { approval_handler := handler, auto_approve := handler.isNone }

/-- Method `ClaudeClient::on_can_use_tool` (lines 35–80): auto-approve when no
handler; warn-and-allow when `tool_use_id` is absent; otherwise invoke the
handler and translate its verdict; handler errors become
`ClientError::ApprovalFailed(e.to_string())`. -/
def on_can_use_tool {V : Type} (c : ClaudeClient V) (tool_name : String) (input : V)
    (tool_use_id : Option String) : Except ClientError (PermissionResult V) :=
  if c.auto_approve then
    .ok (.Allow input none)
  else
    match tool_use_id with
    | some tid =>
      match c.approval_handler with
      | none => .error .ApprovalUnavailable
      | some handler =>
        match handler tool_name input tid with
        | .error e => .error (.ApprovalFailed e.toString)
        | .ok (.Allow updated_input) => .ok (.Allow updated_input none)
        | .ok (.Deny message interrupt) => .ok (.Deny message interrupt)
    | none =>
      -- tracing::warn!("No tool_use_id for tool ..., auto-approving")
      .ok (.Allow input none)

/-- The control response frame the peer writes to the child's stdin:
`ControlResponseType::Success { request_id, response }` or
`ControlResponseType::Error { request_id, error }` (`protocol.rs` lines
165–183). -/
inductive ControlResponse (V : Type) where
  | success (request_id : String) (response : PermissionResult V)
  | error (request_id : String) (error : String)

/-- The `CanUseTool` arm of `ProtocolPeer::handle_control_request`
(`protocol.rs` lines 115–137): run `on_can_use_tool`; a success verdict is
sent as a success control response carrying the serialized result, an error
as an error control response carrying `e.to_string()`. -/
def handle_can_use_tool {V : Type} (c : ClaudeClient V) (request_id tool_name : String)
    (input : V) (tool_use_id : Option String) : ControlResponse V :=
  match on_can_use_tool c tool_name input tool_use_id with
  | .ok result => .success request_id result
  | .error e => .error request_id e.toString

end Claude

open Claude in
/-- C3: dispatch of an inbound `can_use_tool` control request, for every
handler configuration and request.  With no handler configured the reply is
allow with `updated_input = input`; with a handler but no `tool_use_id` the
peer logs a warning and replies allow with the unchanged input; otherwise
the handler is invoked with `(tool_name, input, tool_use_id)` and its
verdict forwarded (`Allow` with the updated input and null permissions, or
`Deny` with message and interrupt); a handler error is returned as a
control-response error whose string is `"Approval failed: "` followed by
the handler's error string. -/
theorem C3_can_use_tool_dispatch {V : Type}
    (handler : Option (ApprovalHandler V)) (request_id tool_name : String)
    (input : V) (tool_use_id : Option String) :
    handle_can_use_tool (ClaudeClient.new handler) request_id tool_name input
        tool_use_id =
      match handler, tool_use_id with
      | none, _ => .success request_id (.Allow input none)
      | some _, none => .success request_id (.Allow input none)
      | some h, some tid =>
        match h tool_name input tid with
        | .ok (.Allow updated) => .success request_id (.Allow updated none)
        | .ok (.Deny msg intr) => .success request_id (.Deny msg intr)
        | .error e => .error request_id ("Approval failed: " ++ e.toString) := by
  cases handler with
  | none =>
    cases tool_use_id <;>
      simp [handle_can_use_tool, on_can_use_tool, ClaudeClient.new, Option.isNone]
  | some h =>
    cases tool_use_id with
    | none =>
      simp [handle_can_use_tool, on_can_use_tool, ClaudeClient.new, Option.isNone]
    | some tid =>
      simp only [handle_can_use_tool, on_can_use_tool, ClaudeClient.new, Option.isNone]
      cases h tool_name input tid with
      | error e => simp [ClientError.toString]
      | ok r => cases r <;> simp

/-! ## Session storage
(`crates/remote-agents-session/src/storage/memory.rs` and the `Session`
record of `crates/remote-agents-core/src/traits.rs`) -/

namespace Storage

/-- Source `traits.rs` lines 18–29: `enum SessionStatus`. -/
inductive SessionStatus where
  | Pending
  | Running
  | Completed
  | Failed
  | Cancelled
  deriving DecidableEq, Repr

/-- Source `context.rs`: `ExecutionContext`; `update_status` never reads the
opaque metadata map, so only the working directory is carried. -/
structure ExecutionContext where
  working_dir : String
  deriving DecidableEq, Repr

/-- Source `traits.rs` lines 44–57: the persisted `Session` record.  `SessionId`
(a UUID) is an abstract identifier, modelled as `Nat`. -/
structure Session where
  id : Nat
  context : ExecutionContext
  status : SessionStatus
  agent_session_id : Option String
  created_at : Int
  updated_at : Int
  deriving DecidableEq, Repr

/-- Source `traits.rs` lines 60–66: `enum StorageError`. -/
inductive StorageError where
  | NotFound (id : Nat)
  | Internal (s : String)
  deriving DecidableEq, Repr

/-- Method `MemoryStorage::update_status` (`memory.rs` lines 86–98): look the
session up (`NotFound` when absent), then unconditionally overwrite its
`status` and set `updated_at` to the current time `now`. -/
def update_status (st : List (Nat × Session)) (id : Nat) (status : SessionStatus)
    (now : Int) : Except StorageError (List (Nat × Session)) :=
  match st.lookup id with
  | none => .error (.NotFound id)
  | some _ =>
    .ok (st.map fun p =>
      if p.1 = id then (p.1, { p.2 with status := status, updated_at := now }) else p)

end Storage

open Storage in
/-- C7 (counterexample): terminal statuses are not sticky.  A session that
is `Completed` is moved back to `Running` by a later `update_status` call:
the storage layer keeps no monotonicity guard. -/
theorem C7_terminal_status_overwritten :
    update_status
        [(0, { id := 0, context := ⟨"/tmp"⟩, status := .Completed,
               agent_session_id := none, created_at := 1, updated_at := 1 })]
        0 .Running 5 =
      .ok [(0, { id := 0, context := ⟨"/tmp"⟩, status := .Running,
                 agent_session_id := none, created_at := 1, updated_at := 5 })] := rfl

open Storage in
/-- C7 (amended): `MemoryStorage::update_status` unconditionally replaces
the stored status of an existing session (and stamps `updated_at`),
whatever the current status is — in particular a session in `Completed`,
`Failed` or `Cancelled` can be moved to any other status.  Terminal states
are not enforced as absorbing by the storage layer. -/
theorem C7_update_status_overwrites (st : List (Nat × Session)) (id : Nat)
    (status : SessionStatus) (now : Int) (s : Session)
    (h : st.lookup id = some s) :
    update_status st id status now =
      .ok (st.map fun p =>
        if p.1 = id then (p.1, { p.2 with status := status, updated_at := now }) else p) ∧
    (st.map fun p =>
        if p.1 = id then (p.1, { p.2 with status := status, updated_at := now })
        else p).lookup id =
      some { s with status := status, updated_at := now } := by
  constructor
  · unfold update_status
    rw [h]
  · induction st with
    | nil => simp [List.lookup] at h
    | cons kv rest ih =>
      obtain ⟨k, v⟩ := kv
      by_cases hk : k = id
      · subst hk
        have hv : v = s := by simpa [List.lookup] using h
        subst hv
        simp only [List.map_cons]
        rw [if_pos trivial]
        simp [List.lookup]
      · have hbeq : (id == k) = false := beq_eq_false_iff_ne.mpr (Ne.symm hk)
        have hrest : rest.lookup id = some s := by
          simpa [List.lookup, hbeq] using h
        simp only [List.map_cons]
        rw [if_neg hk]
        simp [List.lookup, hbeq, ih hrest]

open Storage in
/-- Witness for C7 at a concrete store: a single `Pending` session moved to
`Running` with timestamp 5. -/
theorem C7_update_status_overwrites_witness :
    update_status
        [(0, { id := 0, context := ⟨"/tmp"⟩, status := .Pending,
               agent_session_id := none, created_at := 1, updated_at := 1 })]
        0 .Running 5 =
      .ok [(0, { id := 0, context := ⟨"/tmp"⟩, status := .Running,
                 agent_session_id := none, created_at := 1, updated_at := 5 })] ∧
    ([(0, { id := 0, context := ⟨"/tmp"⟩, status := .Running,
            agent_session_id := none, created_at := 1, updated_at := 5 })] :
        List (Nat × Session)).lookup 0 =
      some { id := 0, context := ⟨"/tmp"⟩, status := .Running,
             agent_session_id := none, created_at := 1, updated_at := 5 } := by
  have h := C7_update_status_overwrites
      [(0, { id := 0, context := ⟨"/tmp"⟩, status := .Pending,
             agent_session_id := none, created_at := 1, updated_at := 1 })]
      0 .Running 5
      { id := 0, context := ⟨"/tmp"⟩, status := .Pending,
        agent_session_id := none, created_at := 1, updated_at := 1 }
      rfl
  exact ⟨h.1, h.2⟩

/-! ## Session manager (`crates/remote-agents-session/src/manager.rs`)

`SessionManager::start_session` interacts with the storage backend, the
executor and the active-session map.  The model records the sequence of
side effects the method performs, in program order, with the storage and
executor outcomes supplied as oracles.  The effect vocabulary includes the
actions the specification attributes to `start_session` (spawning the
forwarding task, pushing to the store); whether they occur in the trace is
what the theorems examine. -/

namespace Manager

open Storage

/-- Source `traits.rs` lines 106–116: `enum ExecutorError`. -/
inductive ExecutorError where
  | SpawnFailed (s : String)
  | ExecutableNotFound (s : String)
  | Io (s : String)
  | CommandBuild (s : String)
  deriving DecidableEq, Repr

/-- Source `manager.rs` lines 12–22: `enum ManagerError`. -/
inductive ManagerError where
  | Storage (e : StorageError)
  | Executor (e : ExecutorError)
  | NotFound (id : Nat)
  | AlreadyRunning
  deriving DecidableEq, Repr

/-- Observable actions of `start_session`, in program order. -/
inductive ManagerEffect where
  /-- Call `self.storage.create(&ctx)` -/
  | storageCreate
  /-- Call `self.storage.update_status(id, status)` -/
  | storageUpdateStatus (id : Nat) (status : SessionStatus)
  /-- Call `MsgStore::new()` -/
  | msgStoreNew
  /-- Call `self.executor.spawn(&ctx, prompt)` -/
  | executorSpawn
  /-- insertion into `active_sessions` -/
  | registerActive (id : Nat)
  /-- Call `drop(process)` -/
  | dropProcess
  /-- a push of a message into the session's `MsgStore` -/
  | pushToStore (msg : LogMsg)
  /-- spawning a task that forwards child output and reacts to child exit -/
  | spawnForwardTask
  deriving DecidableEq, Repr

/-- Method `SessionManager::start_session` (`manager.rs` lines 60–85), with the
outcomes of the two storage calls and the executor spawn supplied as
oracles (`createRes`: the fresh session id from `storage.create`;
`updateRes`: result of `update_status(id, Running)`; `spawnRes`: result of
`executor.spawn`).  Returns the method's result together with the ordered
trace of effects performed.  The body mirrors the source line by line:
create → update to `Running` → `MsgStore::new` → spawn → register active
entry (`interrupt_tx: None`) → `drop(process)` → return the id; the
forwarding task and interrupt wiring are `TODO` comments in the source and
perform nothing. -/
def start_session (createRes : Except StorageError Nat)
    (updateRes : Nat → SessionStatus → Except StorageError Unit)
    (spawnRes : Except ExecutorError Unit) :
    Except ManagerError Nat × List ManagerEffect :=
  match createRes with
  | .error e => (.error (.Storage e), [.storageCreate])
  | .ok session_id =>
    match updateRes session_id .Running with
    | .error e =>
        (.error (.Storage e),
          [.storageCreate, .storageUpdateStatus session_id .Running])
    | .ok _ =>
      match spawnRes with
      | .error e =>
          (.error (.Executor e),
            [.storageCreate, .storageUpdateStatus session_id .Running,
              .msgStoreNew, .executorSpawn])
      | .ok _ =>
          (.ok session_id,
            [.storageCreate, .storageUpdateStatus session_id .Running,
              .msgStoreNew, .executorSpawn, .registerActive session_id,
              .dropProcess])

end Manager

open Manager in
/-- C4 (failing run): with storage and executor succeeding (fresh id 0),
`start_session` does create the session, move it to `Running`, construct
the `MsgStore`, spawn the executor, register the active entry and return
the id — but its effect trace ends with `drop(process)`: it never spawns a
forwarding task, never pushes `Finished`, and performs no further status
update, so nothing is arranged to happen when the child exits (the source
marks these as `TODO` and drops the process handle). -/
theorem C4_start_session_drops_process :
    (start_session (.ok 0) (fun _ _ => .ok ()) (.ok ())).1 = .ok 0 ∧
    (start_session (.ok 0) (fun _ _ => .ok ()) (.ok ())).2 =
      [.storageCreate, .storageUpdateStatus 0 .Running, .msgStoreNew,
        .executorSpawn, .registerActive 0, .dropProcess] ∧
    ManagerEffect.pushToStore LogMsg.Finished ∉
      (start_session (.ok 0) (fun _ _ => .ok ()) (.ok ())).2 ∧
    ManagerEffect.spawnForwardTask ∉
      (start_session (.ok 0) (fun _ _ => .ok ()) (.ok ())).2 ∧
    ManagerEffect.storageUpdateStatus 0 .Completed ∉
      (start_session (.ok 0) (fun _ _ => .ok ()) (.ok ())).2 ∧
    ManagerEffect.storageUpdateStatus 0 .Failed ∉
      (start_session (.ok 0) (fun _ _ => .ok ()) (.ok ())).2 := by
  refine ⟨rfl, rfl, by decide, by decide, by decide, by decide⟩

/-! ## Executable resolution and the PATH refresh
(`crates/remote-agents-pty/src/shell.rs`) -/

namespace Shell

/-- The parts of the platform `resolve_executable_path` consults, supplied
as an oracle: `isAbsFile` is `Path::is_absolute() && path.is_file()`;
`which` is the `which::which` lookup under a given PATH; `freshPath` is
what `get_fresh_path()` produces (running the login shells / reading the
registry) — `none` when every probe fails. -/
structure Env where
  isAbsFile : String → Bool
  which : List String → String → Option String
  freshPath : Option (List String)

/-- The process state the resolver touches: the `PATH` variable (as a list
of entries) and a counter of how many times the PATH refresh has been
executed (i.e. how many times `get_fresh_path` ran its login shells /
registry reads). -/
structure PathState where
  pathVar : List String
  refreshExecs : Nat
  deriving DecidableEq, Repr

/-- Function `merge_paths` (`shell.rs` lines 80–91): concatenate, drop empty
entries, de-duplicate keeping the first occurrence, preserving order. -/
def merge_paths (primary secondary : List String) : List String :=
  (primary ++ secondary).foldl
    (fun acc p => if p = "" ∨ p ∈ acc then acc else acc ++ [p]) []

/-- Function `refresh_path` (`shell.rs` lines 93–109): run `get_fresh_path` (this is
the refresh execution — the counter increments unconditionally); on `None`
report `false`; otherwise merge into the existing PATH; if the merge
changes nothing report `false`, else set the PATH and report `true`. -/
def refresh_path (env : Env) (st : PathState) : Bool × PathState :=
  let st1 : PathState := { st with refreshExecs := st.refreshExecs + 1 }
  match env.freshPath with
  | none => (false, st1)
  | some refreshed =>
    let merged := merge_paths st1.pathVar refreshed
    if merged = st1.pathVar then (false, st1)
    else (true, { st1 with pathVar := merged })

/-- Check `executable.trim().is_empty()`: the trimmed string is empty exactly
when every character is whitespace. -/
def trimIsEmpty (s : String) : Bool :=
  s.data.all Char.isWhitespace

/-- Function `resolve_executable_path` (`shell.rs` lines 49–70): blank name fails;
an absolute path to an existing file is returned verbatim; then `which`
under the current PATH; on failure run `refresh_path` and, only if it
changed the PATH, retry `which` once. -/
def resolve_executable_path (env : Env) (st : PathState) (executable : String) :
    Option String × PathState :=
  if trimIsEmpty executable then (none, st)
  else if env.isAbsFile executable then (some executable, st)
  else
    match env.which st.pathVar executable with
    | some found => (some found, st)
    | none =>
      let r := refresh_path env st
      if r.1 then
        match env.which r.2.pathVar executable with
        | some found => (some found, r.2)
        | none => (none, r.2)
      else (none, r.2)

/-- A sequence of `resolve_executable_path` calls threading the process
state. -/
def resolveAll (env : Env) (st : PathState) (exes : List String) : PathState :=
  exes.foldl (fun s e => (resolve_executable_path env s e).2) st

/-- An environment in which nothing resolves and the refresh probes fail. -/
def barrenEnv : Env :=
  { isAbsFile := fun _ => false
    which := fun _ _ => none
    freshPath := none }

theorem refresh_path_execs (env : Env) (st : PathState) :
    (refresh_path env st).2.refreshExecs = st.refreshExecs + 1 := by
  unfold refresh_path
  cases env.freshPath with
  | none => rfl
  | some refreshed =>
    by_cases hm : merge_paths st.pathVar refreshed = st.pathVar
    · simp [hm]
    · simp [hm]

end Shell

open Shell in
/-- C8 (counterexample): the PATH refresh is not latched to once per
process.  Two consecutive failing `resolve_executable_path` calls execute
the refresh twice: there is no once-only guard in `shell.rs` (the only
`OnceLock` there guards the fallback Tokio runtime, not the refresh). -/
theorem C8_refresh_runs_twice :
    (resolveAll barrenEnv ⟨[], 0⟩ ["claude", "claude"]).refreshExecs = 2 := rfl

open Shell in
/-- C8 (amended): the refresh executes exactly once per
`resolve_executable_path` call whose `which` lookup fails (name non-empty,
not an absolute file, not found on the current PATH) — not at most once per
process. -/
theorem C8_refresh_per_failed_lookup (env : Env) (st : PathState) (exe : String)
    (h1 : trimIsEmpty exe = false) (h2 : env.isAbsFile exe = false)
    (h3 : env.which st.pathVar exe = none) :
    (resolve_executable_path env st exe).2.refreshExecs = st.refreshExecs + 1 := by
  unfold resolve_executable_path
  rw [if_neg (by simp [h1])]
  rw [if_neg (by simp [h2])]
  simp only [h3]
  have hre := refresh_path_execs env st
  by_cases hr : (refresh_path env st).1
  · simp only [if_pos hr]
    cases hw : env.which (refresh_path env st).2.pathVar exe with
    | none => simpa using hre
    | some found => simpa using hre
  · simp only [if_neg hr]
    simpa using hre

open Shell in
/-- Witness for C8 at a concrete failing lookup in the barren environment. -/
theorem C8_refresh_per_failed_lookup_witness :
    (resolve_executable_path barrenEnv ⟨[], 0⟩ "claude").2.refreshExecs = 0 + 1 :=
  C8_refresh_per_failed_lookup barrenEnv ⟨[], 0⟩ "claude" (by decide) rfl rfl

end RemoteAgents
